import Mathlib

/-!
Verification of the VideoLens AI frame-extraction-and-analysis pipeline.

This development shallowly embeds the core of the repository:

* `generateImagePrompt` (src/services/geminiService.ts): the retry /
  exponential-backoff loop around the external model call;
* the capture loop of `startAnalysis`, the reconciliation `useEffect`,
  `processFrame`, and the user actions (`stopAnalysis`, `reset`,
  `handleFileSelected`) of the main application component, modelled as a
  small-step transition system `step` over `AppState`.

Machine numbers: the video duration, the sampling interval and the
timestamps are modelled as naturals; the progress value as a rational.
JavaScript division by zero yields `Infinity` while rational division by
zero yields `0` in Lean; the one place where this matters
(`totalFrames = 0`) is treated explicitly.
-/

namespace VideoLens

/-- Status of a captured frame (src/types.ts, `ProcessingStatus`). -/
inductive ProcessingStatus
  | pending
  | analyzing
  | completed
  | error
  deriving DecidableEq, Repr

/-- One sampled frame of the video (src/types.ts, `VideoFrame`).  Frame
ids are modelled as naturals (the source draws them from
`crypto.randomUUID()`; only freshness/uniqueness matters). -/
structure VideoFrame where
  id : ℕ
  timestamp : ℕ
  prompt : Option String
  status : ProcessingStatus
  errorMessage : Option String
  deriving DecidableEq, Repr

/-- `COMPLETED` and `ERROR` are the terminal statuses
(`f.status === ProcessingStatus.COMPLETED || f.status === ProcessingStatus.ERROR`). -/
def isTerminal : ProcessingStatus → Bool
  | .completed => true
  | .error => true
  | _ => false

/-- Position of a status along `Pending → Analyzing → {Completed | Error}`. -/
def statusRank : ProcessingStatus → ℕ
  | .pending => 0
  | .analyzing => 1
  | .completed => 2
  | .error => 2

/-! ## Analysis Client (src/services/geminiService.ts) -/

/-- Outcome of one attempt of the external model call, as observed by the
`try`/`catch` in `generateImagePrompt`: a successful response may or may
not carry text; a failure either signals HTTP 429 (rate limited) or not,
and may carry a message. -/
inductive ApiOutcome
  | ok (text : Option String)
  | err (is429 : Bool) (msg : Option String)
  deriving DecidableEq, Repr

/-- JavaScript `x || fb` on an optional string: both `undefined` and the
empty string fall back to `fb`. -/
def jsOrString (t : Option String) (fb : String) : String :=
  match t with
  | none => fb
  | some s => if s = "" then fb else s

/-- Fallback when the model response carries no text
(`response.text || "无法生成描述"`). -/
def noTextFallback : String := "无法生成描述"

/-- Generic failure message
(`new Error(error.message || "AI 分析失败，请检查 API Key 或网络连接。")`). -/
def genericFailure : String := "AI 分析失败，请检查 API Key 或网络连接。"

/-- `const maxRetries = 3` in `generateImagePrompt`. -/
def maxRetries : ℕ := 3

/-- The retry loop of `generateImagePrompt`: `call n` is the outcome of
the attempt made with `retries = n` (the attempt counter and the retry
counter coincide in the source).  Returns the final result together with
the list of backoff waits performed, in seconds and in order
(`const waitTime = Math.pow(2, retries) * 1000` after `retries++`). -/
def generateImagePromptAux (call : ℕ → ApiOutcome) (retries : ℕ) :
    Except String String × List ℕ :=
  match call retries with
  | .ok t => (.ok (jsOrString t noTextFallback), [])
  | .err is429 msg =>
    if h : is429 = true ∧ retries < maxRetries then
      let rest := generateImagePromptAux call (retries + 1)
      (rest.1, 2 ^ (retries + 1) :: rest.2)
    else
      (.error (jsOrString msg genericFailure), [])
  termination_by maxRetries - retries
  decreasing_by simp_wf; omega

/-- `generateImagePrompt` (src/services/geminiService.ts), starting from
`retries = 0`. -/
def generateImagePrompt (call : ℕ → ApiOutcome) :
    Except String String × List ℕ :=
  generateImagePromptAux call 0

/-! ## Frame Capturer (capture loop of `startAnalysis`) -/

/-- The capture loop head
`for (let time = 0; time < duration; time += interval)`: the timestamps
emitted starting from `time`.  The positivity guard on `interval` is for
termination only; every call site clamps the interval to `max 1 _`
exactly as the source does. -/
def captureTimesAux (duration interval time : ℕ) : List ℕ :=
  if _h : 0 < interval ∧ time < duration then
    time :: captureTimesAux duration interval (time + interval)
  else
    []
  termination_by duration - time
  decreasing_by simp_wf; omega

/-- Timestamps emitted by an uninterrupted capture phase of
`startAnalysis` (`const interval = Math.max(1, config.interval)`). -/
def captureTimes (duration rawInterval : ℕ) : List ℕ :=
  captureTimesAux duration (max 1 rawInterval) 0

/-- `const totalFrames = Math.floor(duration / interval)` in
`startAnalysis`.  Note the source applies no lower bound to this value. -/
def totalFrames (duration rawInterval : ℕ) : ℕ :=
  duration / max 1 rawInterval

/-- `setProgress((capturedCount / totalFrames) * 50)` in the capture loop.
(In JavaScript `total = 0` yields `Infinity`; in `ℚ` it yields `0` — the
unguarded zero denominator is the subject of the missing-guard theorem.) -/
def captureProgress (total captured : ℕ) : ℚ :=
  ((captured : ℚ) / (total : ℚ)) * 50

/-! ## Pipeline Controller (the App component as a transition system)

Each React state mutation re-renders the component and re-runs the
reconciliation `useEffect` (its dependencies are `frames`, `isProcessing`
and `processFrame`); before a re-run React executes the previous
invocation's cleanup, which clears the pending `setTimeout`.  We
therefore model every source-level event as an atomic transition that
ends with one run of the effect, and keep the live timeout (if any) in
the state as `timer`.

A capture-loop iteration (abort check, seek, draw, append) is modelled
as one atomic `captureStep`; `stop`/`reset` abort only the abort
controller created by the matching `startAnalysis` call, which we model
with generation numbers (`curGen`, `abortedGens`). -/

/-- One in-flight capture loop spawned by a `startAnalysis` call. -/
structure CaptureLoop where
  gen : ℕ
  duration : ℕ
  interval : ℕ
  time : ℕ
  captured : ℕ
  total : ℕ
  deriving DecidableEq, Repr

/-- The React state of the App component, together with the bookkeeping
needed to run it as a transition system (`timer`: the pending
`setTimeout` of the reconciliation effect; `inFlight`: frame ids whose
`generateImagePrompt` call has been issued but has not resolved;
`nextId`: fresh-id counter; `loops`: capture loops still running;
`curGen`/`abortedGens`: abort-controller generations). -/
structure AppState where
  frames : List VideoFrame
  isProcessing : Bool
  progress : ℚ
  timer : Option ℕ
  inFlight : List ℕ
  nextId : ℕ
  loops : List CaptureLoop
  curGen : ℕ
  abortedGens : List ℕ
  deriving DecidableEq

/-- `frames.find(f => f.status === ProcessingStatus.PENDING)`. -/
def firstPending (fs : List VideoFrame) : Option VideoFrame :=
  fs.find? fun f => decide (f.status = .pending)

/-- `frames.some(f => f.status === ProcessingStatus.ANALYZING)`. -/
def hasAnalyzing (fs : List VideoFrame) : Bool :=
  fs.any fun f => decide (f.status = .analyzing)

/-- `frames.every(f => terminal)`. -/
def allTerminal (fs : List VideoFrame) : Bool :=
  fs.all fun f => isTerminal f.status

/-- `frames.filter(f => terminal).length`. -/
def terminalCount (fs : List VideoFrame) : ℕ :=
  (fs.filter fun f => isTerminal f.status).length

/-- Number of frames whose status is `analyzing`. -/
def analyzingCount (fs : List VideoFrame) : ℕ :=
  (fs.filter fun f => decide (f.status = .analyzing)).length

/-- `abortControllerRef.current?.signal.aborted` (generation 0 stands for
the initial `null` controller, which is never aborted). -/
def abortedCur (s : AppState) : Bool :=
  s.abortedGens.contains s.curGen

/-- The body of the reconciliation `useEffect`, run on a state whose
pending timeout has already been cleared by the React cleanup. -/
def effectBody (s : AppState) : AppState :=
  if s.isProcessing = false then s
  else if abortedCur s = true then s
  else if hasAnalyzing s.frames = true then s
  else
    match firstPending s.frames with
    | some p => { s with timer := some p.id }
    | none =>
      if 0 < s.frames.length ∧ allTerminal s.frames = true then
        { s with isProcessing := false, progress := 100 }
      else if 0 < s.frames.length then
        { s with progress :=
          50 + ((terminalCount s.frames : ℚ) / (s.frames.length : ℚ)) * 50 }
      else s

/-- The React cleanup of the reconciliation effect: `clearTimeout`. -/
def clearTimer (s : AppState) : AppState :=
  { s with timer := none }

/-- One re-run of the reconciliation effect: previous cleanup
(`clearTimeout`) followed by the body. -/
def effectRun (s : AppState) : AppState :=
  effectBody (clearTimer s)

/-- `setFrames(prev => prev.map(f => f.id === fid ? upd(f) : f))`. -/
def applyStatus (fid : ℕ) (upd : VideoFrame → VideoFrame)
    (fs : List VideoFrame) : List VideoFrame :=
  fs.map fun f => if f.id = fid then upd f else f

/-- The frame object appended by one capture iteration
(`status: ProcessingStatus.PENDING`, `prompt: null`). -/
def newFrame (id time : ℕ) : VideoFrame :=
  { id := id, timestamp := time, prompt := none, status := .pending,
    errorMessage := none }

/-- Resolution of a `generateImagePrompt` call inside `processFrame`:
success sets `COMPLETED` and the prompt, failure sets `ERROR` and the
error message. -/
def applyOutcome (outcome : Except String String) (f : VideoFrame) :
    VideoFrame :=
  match outcome with
  | .ok t => { f with status := .completed, prompt := some t }
  | .error m => { f with status := .error, errorMessage := some m }

/-- Events of the pipeline. -/
inductive Event
  | startRun (duration rawInterval : ℕ)
  | captureStep (idx : ℕ)
  | timerFire
  | apiResolve (fid : ℕ) (outcome : Except String String)
  | stop
  | fileSelected
  | resetRun

/-- `startAnalysis` up to (and including) the metadata load: reset
frames and progress, set processing, create a fresh abort controller and
spawn a capture loop. -/
def stepStart (s : AppState) (duration rawInterval : ℕ) : AppState :=
  let g := s.curGen + 1
  let i := max 1 rawInterval
  effectRun { s with
    isProcessing := true
    frames := []
    progress := 0
    curGen := g
    loops := s.loops ++
      [{ gen := g, duration := duration, interval := i, time := 0,
         captured := 0, total := totalFrames duration rawInterval }] }

/-- One iteration of the capture loop at index `idx` of `loops`:
`if (signal.aborted) break`, seek, draw, append a `PENDING` frame,
increment `capturedCount`, set the capture-phase progress.  A broken or
finished loop is left inert. -/
def stepCapture (s : AppState) (idx : ℕ) : AppState :=
  match s.loops.get? idx with
  | none => s
  | some l =>
    if l.gen ∈ s.abortedGens then s
    else if l.time < l.duration then
      effectRun { s with
        frames := s.frames ++ [newFrame s.nextId l.time]
        nextId := s.nextId + 1
        progress := captureProgress l.total (l.captured + 1)
        loops := s.loops.set idx
          { l with time := l.time + l.interval, captured := l.captured + 1 } }
    else s

/-- The pending `setTimeout` fires: `processFrame(pendingFrame)` marks
the frame `ANALYZING` and issues the `generateImagePrompt` call. -/
def stepTimerFire (s : AppState) : AppState :=
  match s.timer with
  | none => s
  | some fid =>
    effectRun { s with
      timer := none
      frames := applyStatus fid (fun f => { f with status := .analyzing })
        s.frames
      inFlight := fid :: s.inFlight }

/-- The in-flight `generateImagePrompt` call for frame `fid` resolves;
`processFrame` applies the outcome unconditionally (it never consults
the abort signal). -/
def stepResolve (s : AppState) (fid : ℕ)
    (outcome : Except String String) : AppState :=
  if fid ∈ s.inFlight then
    effectRun { s with
      frames := applyStatus fid (applyOutcome outcome) s.frames
      inFlight := s.inFlight.erase fid }
  else s

/-- `stopAnalysis`: abort the current controller (if one exists) and
clear the processing flag. -/
def stepStop (s : AppState) : AppState :=
  effectRun { s with
    abortedGens :=
      if s.curGen = 0 then s.abortedGens else s.curGen :: s.abortedGens
    isProcessing := false }

/-- `handleFileSelected`: clear frames, progress and the processing
flag.  The abort controller is left untouched. -/
def stepFileSelected (s : AppState) : AppState :=
  effectRun { s with frames := [], progress := 0, isProcessing := false }

/-- `reset`: clear everything and abort the current controller
(`if (abortControllerRef.current) abortControllerRef.current.abort()`). -/
def stepReset (s : AppState) : AppState :=
  effectRun { s with
    frames := []
    progress := 0
    isProcessing := false
    abortedGens :=
      if s.curGen = 0 then s.abortedGens else s.curGen :: s.abortedGens }

/-- The transition function of the pipeline. -/
def step (s : AppState) : Event → AppState
  | .startRun d i => stepStart s d i
  | .captureStep idx => stepCapture s idx
  | .timerFire => stepTimerFire s
  | .apiResolve fid o => stepResolve s fid o
  | .stop => stepStop s
  | .fileSelected => stepFileSelected s
  | .resetRun => stepReset s

/-- Initial component state. -/
def initState : AppState :=
  { frames := [], isProcessing := false, progress := 0, timer := none,
    inFlight := [], nextId := 0, loops := [], curGen := 0,
    abortedGens := [] }

/-- States reachable from the initial state. -/
inductive Reachable : AppState → Prop
  | init : Reachable initState
  | next : ∀ {s : AppState} (e : Event), Reachable s → Reachable (step s e)

/-! ## Concrete runs used in the claim analyses -/

/-- A run on a 5-second video sampled every 3 seconds, after two capture
iterations (both frames still pending). -/
def runD5 : AppState :=
  step (step (step initState (.startRun 5 3)) (.captureStep 0))
    (.captureStep 0)

/-- A run on a 7-second video sampled every 3 seconds in which the
first frame's analysis completes while the capture loop is still
between iterations (awaiting a seek): the reconciliation sees every
captured frame terminal and declares the run done. -/
def runDone7 : AppState :=
  step (step (step (step initState (.startRun 7 3)) (.captureStep 0))
    .timerFire) (.apiResolve 0 (.ok "p"))

/-- A run on a 3-second video sampled every 3 seconds: one captured
frame whose analysis call has been issued. -/
def runFired : AppState :=
  step (step (step initState (.startRun 3 3)) (.captureStep 0)) .timerFire

/-- `runFired` after the user presses stop (analysis still in flight). -/
def runStopped : AppState := step runFired .stop

/-- A run on a 6-second video sampled every 3 seconds, after two capture
iterations. -/
def runTwo : AppState :=
  step (step (step initState (.startRun 6 3)) (.captureStep 0))
    (.captureStep 0)

/-- `runTwo` after the scheduled timeout fired (frame 0 analyzing). -/
def runTwoFired : AppState := step runTwo .timerFire

/-- A run on a 9-second video sampled every 3 seconds, after one capture
iteration. -/
def runOne : AppState :=
  step (step initState (.startRun 9 3)) (.captureStep 0)

/-- A completed frame, for concrete checks. -/
def doneFrame : VideoFrame :=
  { id := 0, timestamp := 0, prompt := some "p", status := .completed,
    errorMessage := none }

/-- A live state whose single frame is completed. -/
def doneState : AppState :=
  { frames := [doneFrame], isProcessing := true, progress := 75,
    timer := none, inFlight := [], nextId := 1, loops := [], curGen := 1,
    abortedGens := [] }

/-- An external call that is rate-limited twice, then succeeds. -/
def callTwice429 : ℕ → ApiOutcome :=
  fun n => if n < 2 then .err true (some "429") else .ok (some "hello")

/-- An external call that is always rate-limited. -/
def callAlways429 : ℕ → ApiOutcome := fun _ => .err true (some "429")

/-- An external call that fails immediately for a non-rate-limit
reason. -/
def callBadKey : ℕ → ApiOutcome := fun _ => .err false (some "bad key")

/-- An external call that is always rate-limited and carries no
message. -/
def callNoMsg : ℕ → ApiOutcome := fun _ => .err true none

/-! ## Basic lemmas about the reconciliation effect -/

@[simp] theorem clearTimer_frames (s : AppState) :
    (clearTimer s).frames = s.frames := rfl

@[simp] theorem clearTimer_isProcessing (s : AppState) :
    (clearTimer s).isProcessing = s.isProcessing := rfl

@[simp] theorem clearTimer_progress (s : AppState) :
    (clearTimer s).progress = s.progress := rfl

@[simp] theorem clearTimer_timer (s : AppState) :
    (clearTimer s).timer = none := rfl

@[simp] theorem clearTimer_inFlight (s : AppState) :
    (clearTimer s).inFlight = s.inFlight := rfl

@[simp] theorem clearTimer_nextId (s : AppState) :
    (clearTimer s).nextId = s.nextId := rfl

@[simp] theorem clearTimer_loops (s : AppState) :
    (clearTimer s).loops = s.loops := rfl

@[simp] theorem clearTimer_curGen (s : AppState) :
    (clearTimer s).curGen = s.curGen := rfl

@[simp] theorem clearTimer_abortedGens (s : AppState) :
    (clearTimer s).abortedGens = s.abortedGens := rfl

@[simp] theorem abortedCur_clearTimer (s : AppState) :
    abortedCur (clearTimer s) = abortedCur s := rfl

theorem effectBody_fields (s : AppState) :
    (effectBody s).frames = s.frames ∧
    (effectBody s).inFlight = s.inFlight ∧
    (effectBody s).nextId = s.nextId ∧
    (effectBody s).loops = s.loops ∧
    (effectBody s).curGen = s.curGen ∧
    (effectBody s).abortedGens = s.abortedGens := by
  unfold effectBody
  repeat' split
  all_goals simp

theorem effectRun_frames (s : AppState) :
    (effectRun s).frames = s.frames :=
  (effectBody_fields _).1

theorem effectRun_inFlight (s : AppState) :
    (effectRun s).inFlight = s.inFlight :=
  (effectBody_fields _).2.1

theorem effectRun_nextId (s : AppState) :
    (effectRun s).nextId = s.nextId :=
  (effectBody_fields _).2.2.1

theorem effectRun_loops (s : AppState) :
    (effectRun s).loops = s.loops :=
  (effectBody_fields _).2.2.2.1

theorem effectRun_curGen (s : AppState) :
    (effectRun s).curGen = s.curGen :=
  (effectBody_fields _).2.2.2.2.1

theorem effectRun_abortedGens (s : AppState) :
    (effectRun s).abortedGens = s.abortedGens :=
  (effectBody_fields _).2.2.2.2.2

theorem abortedCur_effectRun (s : AppState) :
    abortedCur (effectRun s) = abortedCur s := by
  unfold abortedCur
  rw [effectRun_abortedGens, effectRun_curGen]

/-- If the reconciliation effect leaves a scheduled timeout, the run was
live (processing, not aborted), no frame was analyzing, and the
scheduled id is that of the first pending frame. -/
theorem effectRun_timer_some {s : AppState} {fid : ℕ}
    (h : (effectRun s).timer = some fid) :
    s.isProcessing = true ∧ abortedCur s = false ∧
    hasAnalyzing s.frames = false ∧
    ∃ f, firstPending s.frames = some f ∧ f.id = fid := by
  unfold effectRun effectBody at h
  split at h
  · simp at h
  · split at h
    · simp at h
    · split at h
      · simp at h
      · rename_i h1 h2 h3
        simp only [Bool.not_eq_false, Bool.not_eq_true] at h1 h2 h3
        split at h
        · rename_i p hp
          simp only [Option.some.injEq] at h
          refine ⟨by simpa using h1, by simpa using h2,
            by simpa using h3, p, by simpa using hp, h⟩
        · split at h
          · simp at h
          · split at h
            · simp at h
            · simp at h

/-- The effect never schedules while some frame is analyzing, is
cancelled, or the run is not processing. -/
theorem effectRun_timer_none {s : AppState}
    (h : s.isProcessing = false ∨ abortedCur s = true ∨
      hasAnalyzing s.frames = true) :
    (effectRun s).timer = none := by
  by_cases hT : (effectRun s).timer = none
  · exact hT
  · obtain ⟨fid, hfid⟩ := Option.ne_none_iff_exists'.mp hT
    obtain ⟨h1, h2, h3, _⟩ := effectRun_timer_some hfid
    rcases h with h | h | h
    · rw [h1] at h; exact absurd h (by simp)
    · rw [h2] at h; exact absurd h (by simp)
    · rw [h3] at h; exact absurd h (by simp)

/-! ## List helpers -/

theorem find?_split {α : Type} (p : α → Bool) (l : List α) (a : α)
    (h : l.find? p = some a) :
    ∃ l1 l2, l = l1 ++ a :: l2 ∧ p a = true ∧ ∀ b ∈ l1, p b = false := by
  induction l with
  | nil => simp [List.find?] at h
  | cons x xs ih =>
    by_cases hx : p x = true
    · rw [List.find?_cons_of_pos _ hx] at h
      obtain rfl : x = a := by simpa using h
      exact ⟨[], xs, rfl, hx, by simp⟩
    · rw [List.find?_cons_of_neg _ hx] at h
      obtain ⟨l1, l2, rfl, hpa, hneg⟩ := ih h
      exact ⟨x :: l1, l2, rfl, hpa, by
        intro b hb
        rcases List.mem_cons.mp hb with rfl | hb
        · simpa using hx
        · exact hneg b hb⟩

theorem two_le_length_of_mem_ne {α : Type} {l : List α} {a b : α}
    (ha : a ∈ l) (hb : b ∈ l) (hne : a ≠ b) : 2 ≤ l.length := by
  match l with
  | [] => simp at ha
  | [x] =>
    simp at ha hb
    exact absurd (ha.trans hb.symm) hne
  | x :: y :: t => simp [Nat.succ_le_succ, Nat.le_add_left]

theorem frames_id_inj {fs : List VideoFrame}
    (hnd : (fs.map VideoFrame.id).Nodup) {f g : VideoFrame}
    (hf : f ∈ fs) (hg : g ∈ fs) (hid : f.id = g.id) : f = g := by
  induction fs with
  | nil => simp at hf
  | cons x xs ih =>
    simp only [List.map_cons, List.nodup_cons] at hnd
    rcases List.mem_cons.mp hf with rfl | hf' <;>
      rcases List.mem_cons.mp hg with rfl | hg'
    · rfl
    · exact absurd (by rw [hid]; exact List.mem_map_of_mem VideoFrame.id hg')
        hnd.1
    · exact absurd (by rw [← hid]; exact List.mem_map_of_mem VideoFrame.id hf')
        hnd.1
    · exact ih hnd.2 hf' hg'

theorem mem_applyStatus {fid : ℕ} {u : VideoFrame → VideoFrame}
    {fs : List VideoFrame} {f' : VideoFrame}
    (h : f' ∈ applyStatus fid u fs) :
    ∃ f ∈ fs, f' = if f.id = fid then u f else f := by
  obtain ⟨f, hf, hf'⟩ := List.mem_map.mp h
  exact ⟨f, hf, hf'.symm⟩

theorem applyStatus_id_map (fid : ℕ) (u : VideoFrame → VideoFrame)
    (hu : ∀ f, (u f).id = f.id) (fs : List VideoFrame) :
    (applyStatus fid u fs).map VideoFrame.id = fs.map VideoFrame.id := by
  induction fs with
  | nil => rfl
  | cons x xs ih =>
    simp only [applyStatus, List.map_cons] at ih ⊢
    rw [ih]
    by_cases hx : x.id = fid
    · simp [hx, hu]
    · simp [hx]

theorem map_ite_id {fid : ℕ} {u : VideoFrame → VideoFrame}
    {l : List VideoFrame} (h : ∀ g ∈ l, g.id ≠ fid) :
    applyStatus fid u l = l := by
  induction l with
  | nil => rfl
  | cons x xs ih =>
    simp only [applyStatus, List.map_cons]
    rw [if_neg (h x (by simp))]
    have := ih fun g hg => h g (List.mem_cons_of_mem _ hg)
    simpa [applyStatus] using this

theorem applyStatus_split {fid : ℕ} {u : VideoFrame → VideoFrame}
    {l1 l2 : List VideoFrame} {f : VideoFrame}
    (hnd : (((l1 ++ f :: l2)).map VideoFrame.id).Nodup)
    (hfid : f.id = fid) :
    applyStatus fid u (l1 ++ f :: l2) = l1 ++ u f :: l2 := by
  simp only [List.map_append, List.map_cons] at hnd
  have hnd1 := List.Nodup.of_append_left hnd
  have hdisj := List.disjoint_of_nodup_append hnd
  have hnd2 := (List.Nodup.of_append_right hnd : (f.id :: l2.map VideoFrame.id).Nodup)
  simp only [List.nodup_cons] at hnd2
  have h1 : ∀ g ∈ l1, g.id ≠ fid := by
    intro g hg hc
    exact hdisj (List.mem_map_of_mem VideoFrame.id hg)
      (by simp [hc, hfid])
  have h2 : ∀ g ∈ l2, g.id ≠ fid := by
    intro g hg hc
    exact hnd2.1 (by rw [hfid, ← hc]; exact List.mem_map_of_mem VideoFrame.id hg)
  simp only [applyStatus, List.map_append, List.map_cons, if_pos hfid]
  rw [show (l1.map fun g => if g.id = fid then u g else g) = l1 from map_ite_id h1,
    show (l2.map fun g => if g.id = fid then u g else g) = l2 from map_ite_id h2]

/-- Full case analysis of one reconciliation-effect run. -/
theorem effectRun_cases (s : AppState) :
    ((s.isProcessing = false ∨ abortedCur s = true ∨
        hasAnalyzing s.frames = true ∨
        (firstPending s.frames = none ∧ s.frames.length = 0)) ∧
      effectRun s = { s with timer := none }) ∨
    (∃ p, s.isProcessing = true ∧ abortedCur s = false ∧
      hasAnalyzing s.frames = false ∧ firstPending s.frames = some p ∧
      effectRun s = { s with timer := some p.id }) ∨
    (s.isProcessing = true ∧ abortedCur s = false ∧
      hasAnalyzing s.frames = false ∧ firstPending s.frames = none ∧
      0 < s.frames.length ∧ allTerminal s.frames = true ∧
      effectRun s =
        { s with timer := none, isProcessing := false, progress := 100 }) ∨
    (s.isProcessing = true ∧ abortedCur s = false ∧
      hasAnalyzing s.frames = false ∧ firstPending s.frames = none ∧
      0 < s.frames.length ∧ allTerminal s.frames = false ∧
      effectRun s = { s with timer := none, progress :=
        50 + ((terminalCount s.frames : ℚ) / (s.frames.length : ℚ)) * 50 }) := by
  by_cases h1 : s.isProcessing = false
  · refine Or.inl ⟨Or.inl h1, ?_⟩
    unfold effectRun effectBody
    simp only [clearTimer_isProcessing]
    rw [if_pos h1]
    simp [clearTimer]
  rw [Bool.not_eq_false] at h1
  by_cases h2 : abortedCur s = true
  · refine Or.inl ⟨Or.inr (Or.inl h2), ?_⟩
    unfold effectRun effectBody
    simp only [clearTimer_isProcessing, abortedCur_clearTimer]
    rw [if_neg (by simp [h1]), if_pos h2]
    simp [clearTimer]
  rw [Bool.not_eq_true] at h2
  by_cases h3 : hasAnalyzing s.frames = true
  · refine Or.inl ⟨Or.inr (Or.inr (Or.inl h3)), ?_⟩
    unfold effectRun effectBody
    simp only [clearTimer_isProcessing, abortedCur_clearTimer,
      clearTimer_frames]
    rw [if_neg (by simp [h1]), if_neg (by simp [h2]), if_pos h3]
    simp [clearTimer]
  rw [Bool.not_eq_true] at h3
  cases hp : firstPending s.frames with
  | some p =>
    refine Or.inr (Or.inl ⟨p, h1, h2, h3, rfl, ?_⟩)
    unfold effectRun effectBody
    simp only [clearTimer_isProcessing, abortedCur_clearTimer,
      clearTimer_frames]
    rw [if_neg (by simp [h1]), if_neg (by simp [h2]),
      if_neg (by simp [h3]), hp]
    simp [clearTimer]
  | none =>
    by_cases h4 : 0 < s.frames.length
    · by_cases h5 : allTerminal s.frames = true
      · refine Or.inr (Or.inr (Or.inl ⟨h1, h2, h3, rfl, h4, h5, ?_⟩))
        unfold effectRun effectBody
        simp only [clearTimer_isProcessing, abortedCur_clearTimer,
          clearTimer_frames]
        rw [if_neg (by simp [h1]), if_neg (by simp [h2]),
          if_neg (by simp [h3]), hp]
        simp [clearTimer, h4, h5]
      · rw [Bool.not_eq_true] at h5
        refine Or.inr (Or.inr (Or.inr ⟨h1, h2, h3, rfl, h4, h5, ?_⟩))
        unfold effectRun effectBody
        simp only [clearTimer_isProcessing, abortedCur_clearTimer,
          clearTimer_frames]
        rw [if_neg (by simp [h1]), if_neg (by simp [h2]),
          if_neg (by simp [h3]), hp]
        simp [clearTimer, h4, h5]
    · refine Or.inl ⟨Or.inr (Or.inr (Or.inr ⟨rfl, by omega⟩)), ?_⟩
      unfold effectRun effectBody
      simp only [clearTimer_isProcessing, abortedCur_clearTimer,
        clearTimer_frames]
      rw [if_neg (by simp [h1]), if_neg (by simp [h2]),
        if_neg (by simp [h3]), hp]
      simp [clearTimer, h4]

/-! ## Counting lemmas -/

theorem analyzingCount_append (a b : List VideoFrame) :
    analyzingCount (a ++ b) = analyzingCount a + analyzingCount b := by
  simp [analyzingCount, List.filter_append]

theorem applyStatus_cons (fid : ℕ) (u : VideoFrame → VideoFrame)
    (x : VideoFrame) (xs : List VideoFrame) :
    applyStatus fid u (x :: xs) =
      (if x.id = fid then u x else x) :: applyStatus fid u xs := rfl

theorem analyzingCount_cons (f : VideoFrame) (fs : List VideoFrame) :
    analyzingCount (f :: fs) =
      analyzingCount fs + (if f.status = .analyzing then 1 else 0) := by
  by_cases h : f.status = .analyzing <;>
    simp [analyzingCount, List.filter_cons, h]

theorem hasAnalyzing_false_iff (fs : List VideoFrame) :
    hasAnalyzing fs = false ↔ ∀ f ∈ fs, f.status ≠ .analyzing := by
  simp [hasAnalyzing, List.any_eq_false]

theorem analyzingCount_eq_zero_of_hasAnalyzing_false {fs : List VideoFrame}
    (h : hasAnalyzing fs = false) : analyzingCount fs = 0 := by
  rw [hasAnalyzing_false_iff] at h
  simp only [analyzingCount, List.length_eq_zero, List.filter_eq_nil_iff]
  intro f hf
  simpa using h f hf

theorem analyzingCount_applyStatus_le {fid : ℕ}
    {u : VideoFrame → VideoFrame} (hu : ∀ f, (u f).status ≠ .analyzing)
    (fs : List VideoFrame) :
    analyzingCount (applyStatus fid u fs) ≤ analyzingCount fs := by
  induction fs with
  | nil => simp [applyStatus, analyzingCount]
  | cons x xs ih =>
    rw [applyStatus_cons, analyzingCount_cons, analyzingCount_cons]
    by_cases hx : x.id = fid
    · rw [if_pos hx, if_neg (hu x)]
      simpa using le_trans ih (Nat.le_add_right _ _)
    · rw [if_neg hx]
      exact Nat.add_le_add_right ih _

theorem applyOutcome_status_ne (o : Except String String)
    (f : VideoFrame) : (applyOutcome o f).status ≠ .analyzing := by
  cases o <;> simp [applyOutcome]

theorem applyOutcome_id (o : Except String String) (f : VideoFrame) :
    (applyOutcome o f).id = f.id := by
  cases o <;> simp [applyOutcome]

/-- If at most one frame is analyzing and the analyzing frame has id
`fid`, applying a terminal outcome to `fid` leaves no analyzing frame. -/
theorem hasAnalyzing_applyOutcome_false {fs : List VideoFrame} {fid : ℕ}
    {o : Except String String} (hcount : analyzingCount fs ≤ 1)
    {f : VideoFrame} (hf : f ∈ fs) (hfid : f.id = fid)
    (hfa : f.status = .analyzing) :
    hasAnalyzing (applyStatus fid (applyOutcome o) fs) = false := by
  rw [hasAnalyzing_false_iff]
  intro g' hg' hga
  obtain ⟨g, hg, rfl⟩ := mem_applyStatus hg'
  by_cases hid : g.id = fid
  · rw [if_pos hid] at hga
    exact applyOutcome_status_ne o g hga
  · rw [if_neg hid] at hga
    have hne : f ≠ g := fun h => hid (h ▸ hfid)
    have hmemf : f ∈ fs.filter fun x => decide (x.status = .analyzing) :=
      List.mem_filter.mpr ⟨hf, by simp [hfa]⟩
    have hmemg : g ∈ fs.filter fun x => decide (x.status = .analyzing) :=
      List.mem_filter.mpr ⟨hg, by simp [hga]⟩
    have h2 : 2 ≤ analyzingCount fs :=
      two_le_length_of_mem_ne hmemf hmemg hne
    omega

theorem analyzingCount_eq_zero {l : List VideoFrame}
    (h : ∀ f ∈ l, f.status ≠ .analyzing) : analyzingCount l = 0 :=
  analyzingCount_eq_zero_of_hasAnalyzing_false
    ((hasAnalyzing_false_iff l).mpr h)

/-- If the effect leaves a scheduled timeout, the resulting state is
still processing. -/
theorem effectRun_isProcessing_of_timer {s : AppState} {fid : ℕ}
    (h : (effectRun s).timer = some fid) :
    (effectRun s).isProcessing = true := by
  rcases effectRun_cases s with ⟨_, heq⟩ | ⟨p, h1, _, _, _, heq⟩ |
    ⟨_, _, _, _, _, _, heq⟩ | ⟨_, _, _, _, _, _, heq⟩
  · rw [heq] at h; simp at h
  · rw [heq]; exact h1
  · rw [heq] at h; simp at h
  · rw [heq] at h; simp at h

/-! ## The run invariant -/

/-- Inductive invariant over reachable states: at most one frame is
analyzing; a scheduled timeout implies a live run with no analyzing
frame and names the first pending frame; every in-flight call's frame
(if still present) is analyzing; ids are fresh and unique. -/
structure Inv (s : AppState) : Prop where
  analyzingLe : analyzingCount s.frames ≤ 1
  timerSome : ∀ fid, s.timer = some fid →
    s.isProcessing = true ∧ abortedCur s = false ∧
    hasAnalyzing s.frames = false ∧
    ∃ f, firstPending s.frames = some f ∧ f.id = fid
  inFlightAnalyzing : ∀ fid ∈ s.inFlight, ∀ f ∈ s.frames, f.id = fid →
    f.status = .analyzing
  idsFresh : ∀ f ∈ s.frames, f.id < s.nextId
  idsNodup : (s.frames.map VideoFrame.id).Nodup
  inFlightFresh : ∀ fid ∈ s.inFlight, fid < s.nextId
  inFlightNodup : s.inFlight.Nodup

/-- The invariant holds after an effect run as soon as its frame-level
components hold before it. -/
theorem inv_effectRun {s : AppState}
    (h1 : analyzingCount s.frames ≤ 1)
    (h2 : ∀ fid ∈ s.inFlight, ∀ f ∈ s.frames, f.id = fid →
      f.status = .analyzing)
    (h3 : ∀ f ∈ s.frames, f.id < s.nextId)
    (h4 : (s.frames.map VideoFrame.id).Nodup)
    (h5 : ∀ fid ∈ s.inFlight, fid < s.nextId)
    (h6 : s.inFlight.Nodup) : Inv (effectRun s) := by
  constructor
  · rw [effectRun_frames]; exact h1
  · intro fid ht
    obtain ⟨hip, hab, hna, f, hfp, hfid⟩ := effectRun_timer_some ht
    refine ⟨effectRun_isProcessing_of_timer ht, ?_, ?_, f, ?_, hfid⟩
    · rw [abortedCur_effectRun]; exact hab
    · rw [effectRun_frames]; exact hna
    · rw [effectRun_frames]; exact hfp
  · rw [effectRun_inFlight, effectRun_frames]; exact h2
  · rw [effectRun_frames, effectRun_nextId]; exact h3
  · rw [effectRun_frames]; exact h4
  · rw [effectRun_inFlight, effectRun_nextId]; exact h5
  · rw [effectRun_inFlight]; exact h6

theorem inv_step {s : AppState} (h : Inv s) (e : Event) :
    Inv (step s e) := by
  cases e with
  | startRun d i =>
    show Inv (stepStart s d i)
    refine inv_effectRun (by simp [analyzingCount]) (by simp) (by simp)
      (by simp) ?_ ?_
    · exact h.inFlightFresh
    · exact h.inFlightNodup
  | captureStep idx =>
    show Inv (stepCapture s idx)
    unfold stepCapture
    split
    · exact h
    · rename_i l hidx
      split
      · exact h
      · split
        · rename_i hg htl
          have hfresh : s.nextId ∉ s.frames.map VideoFrame.id := by
            intro hc
            obtain ⟨f, hf, hfid⟩ := List.mem_map.mp hc
            exact absurd (hfid ▸ h.idsFresh f hf) (lt_irrefl _)
          refine inv_effectRun ?_ ?_ ?_ ?_ ?_ h.inFlightNodup
          · show analyzingCount (s.frames ++ [newFrame s.nextId l.time]) ≤ 1
            rw [analyzingCount_append]
            have : analyzingCount [newFrame s.nextId l.time] = 0 := by
              simp [analyzingCount, newFrame]
            have hle := h.analyzingLe
            omega
          · intro fid hfid f hf hfi
            rcases List.mem_append.mp hf with hf' | hf'
            · exact h.inFlightAnalyzing fid hfid f hf' hfi
            · have : f = newFrame s.nextId l.time := by simpa using hf'
              subst this
              have := h.inFlightFresh fid hfid
              simp only [newFrame] at hfi
              omega
          · intro f hf
            rcases List.mem_append.mp hf with hf' | hf'
            · exact lt_trans (h.idsFresh f hf') (Nat.lt_succ_self _)
            · have : f = newFrame s.nextId l.time := by simpa using hf'
              subst this
              simp [newFrame]
          · show ((s.frames ++ [newFrame s.nextId l.time]).map
              VideoFrame.id).Nodup
            rw [List.map_append]
            rw [List.nodup_append]
            refine ⟨h.idsNodup, by simp [newFrame], ?_⟩
            intro a ha hb
            simp only [newFrame, List.map_cons, List.map_nil,
              List.mem_singleton] at hb
            subst hb
            exact hfresh ha
          · intro fid hfid
            exact lt_trans (h.inFlightFresh fid hfid) (Nat.lt_succ_self _)
        · exact h
  | timerFire =>
    show Inv (stepTimerFire s)
    unfold stepTimerFire
    cases ht : s.timer with
    | none => exact h
    | some fid =>
    · obtain ⟨hip, hab, hna, f, hfp, hfid⟩ := h.timerSome fid ht
      have hfmem : f ∈ s.frames := List.mem_of_find?_eq_some hfp
      have hfpend : f.status = .pending := by
        have := List.find?_some hfp
        simpa using this
      have hna' : ∀ g ∈ s.frames, g.status ≠ .analyzing :=
        (hasAnalyzing_false_iff _).mp hna
      have hnotin : fid ∉ s.inFlight := by
        intro hin
        have := h.inFlightAnalyzing fid hin f hfmem hfid
        rw [hfpend] at this
        simp at this
      refine inv_effectRun ?_ ?_ ?_ ?_ ?_ ?_
      · show analyzingCount (applyStatus fid
          (fun f => { f with status := .analyzing }) s.frames) ≤ 1
        obtain ⟨l1, l2, hsplit, _, _⟩ := find?_split _ _ _ hfp
        rw [hsplit, applyStatus_split (hsplit ▸ h.idsNodup) hfid]
        rw [analyzingCount_append, analyzingCount_cons]
        have hl1 : analyzingCount l1 = 0 := by
          refine analyzingCount_eq_zero fun g hg => ?_
          exact hna' g (by rw [hsplit]; exact List.mem_append_left _ hg)
        have hl2 : analyzingCount l2 = 0 := by
          refine analyzingCount_eq_zero fun g hg => ?_
          refine hna' g ?_
          rw [hsplit]
          exact List.mem_append_right _ (List.mem_cons_of_mem _ hg)
        simp [hl1, hl2]
      · intro fid' hfid' g hg hgid
        obtain ⟨g0, hg0, hgeq⟩ := mem_applyStatus hg
        by_cases hg0id : g0.id = fid
        · rw [if_pos hg0id] at hgeq
          rw [hgeq]
        · rw [if_neg hg0id] at hgeq
          rw [hgeq] at hgid ⊢
          rcases List.mem_cons.mp hfid' with rfl | hin
          · exact absurd hgid hg0id
          · exact h.inFlightAnalyzing fid' hin g0 hg0 hgid
      · intro g hg
        obtain ⟨g0, hg0, hgeq⟩ := mem_applyStatus hg
        have hid : g.id = g0.id := by
          rw [hgeq]
          by_cases hx : g0.id = fid <;> simp [hx]
        rw [hid]
        exact h.idsFresh g0 hg0
      · rw [applyStatus_id_map fid
          (fun f => { f with status := ProcessingStatus.analyzing })
          (fun f => rfl) s.frames]
        exact h.idsNodup
      · intro fid' hfid'
        rcases List.mem_cons.mp hfid' with rfl | hin
        · rw [← hfid]; exact h.idsFresh f hfmem
        · exact h.inFlightFresh fid' hin
      · exact List.nodup_cons.mpr ⟨hnotin, h.inFlightNodup⟩
  | apiResolve fid o =>
    show Inv (stepResolve s fid o)
    unfold stepResolve
    by_cases hin : fid ∈ s.inFlight
    · rw [if_pos hin]
      refine inv_effectRun ?_ ?_ ?_ ?_ ?_ ?_
      · exact le_trans
          (analyzingCount_applyStatus_le (applyOutcome_status_ne o) _)
          h.analyzingLe
      · intro fid' hfid' g hg hgid
        obtain ⟨hne, hmem⟩ :=
          (h.inFlightNodup.mem_erase_iff).mp hfid'
        obtain ⟨g0, hg0, hgeq⟩ := mem_applyStatus hg
        by_cases hg0id : g0.id = fid
        · rw [if_pos hg0id] at hgeq
          rw [hgeq] at hgid
          rw [applyOutcome_id] at hgid
          exact absurd (hg0id.symm.trans hgid).symm hne
        · rw [if_neg hg0id] at hgeq
          rw [hgeq] at hgid ⊢
          exact h.inFlightAnalyzing fid' hmem g0 hg0 hgid
      · intro g hg
        obtain ⟨g0, hg0, hgeq⟩ := mem_applyStatus hg
        have hid : g.id = g0.id := by
          rw [hgeq]
          by_cases hx : g0.id = fid <;> simp [hx, applyOutcome_id]
        rw [hid]
        exact h.idsFresh g0 hg0
      · rw [applyStatus_id_map fid (applyOutcome o)
          (applyOutcome_id o) s.frames]
        exact h.idsNodup
      · intro fid' hfid'
        exact h.inFlightFresh fid' (List.mem_of_mem_erase hfid')
      · exact h.inFlightNodup.erase _
    · rw [if_neg hin]; exact h
  | stop =>
    show Inv (stepStop s)
    exact inv_effectRun h.analyzingLe h.inFlightAnalyzing h.idsFresh
      h.idsNodup h.inFlightFresh h.inFlightNodup
  | fileSelected =>
    show Inv (stepFileSelected s)
    refine inv_effectRun (by simp [analyzingCount]) (by simp) (by simp)
      (by simp) ?_ ?_
    · exact h.inFlightFresh
    · exact h.inFlightNodup
  | resetRun =>
    show Inv (stepReset s)
    refine inv_effectRun (by simp [analyzingCount]) (by simp) (by simp)
      (by simp) ?_ ?_
    · exact h.inFlightFresh
    · exact h.inFlightNodup

/-- Every reachable state satisfies the invariant. -/
theorem inv_reachable {s : AppState} (h : Reachable s) : Inv s := by
  induction h with
  | init =>
    constructor <;> simp [initState, analyzingCount]
  | next e _ ih => exact inv_step ih e

/-! ## Step-characterization lemmas -/

theorem stepStart_frames (s : AppState) (d i : ℕ) :
    (stepStart s d i).frames = [] := by
  unfold stepStart
  rw [effectRun_frames]

theorem stepFileSelected_frames (s : AppState) :
    (stepFileSelected s).frames = [] := by
  unfold stepFileSelected
  rw [effectRun_frames]

theorem stepReset_frames (s : AppState) :
    (stepReset s).frames = [] := by
  unfold stepReset
  rw [effectRun_frames]

theorem stepStop_frames (s : AppState) :
    (stepStop s).frames = s.frames := by
  unfold stepStop
  rw [effectRun_frames]

theorem stepTimerFire_none {s : AppState} (ht : s.timer = none) :
    stepTimerFire s = s := by
  unfold stepTimerFire
  rw [ht]

theorem stepTimerFire_some_frames {s : AppState} {fid : ℕ}
    (ht : s.timer = some fid) :
    (stepTimerFire s).frames =
      applyStatus fid (fun f => { f with status := .analyzing })
        s.frames := by
  unfold stepTimerFire
  rw [ht]
  show (effectRun _).frames = _
  rw [effectRun_frames]

theorem stepResolve_mem {s : AppState} {fid : ℕ}
    {o : Except String String} (hin : fid ∈ s.inFlight) :
    stepResolve s fid o = effectRun { s with
      frames := applyStatus fid (applyOutcome o) s.frames
      inFlight := s.inFlight.erase fid } := by
  unfold stepResolve
  rw [if_pos hin]

theorem stepResolve_not_mem {s : AppState} {fid : ℕ}
    {o : Except String String} (hin : fid ∉ s.inFlight) :
    stepResolve s fid o = s := by
  unfold stepResolve
  rw [if_neg hin]

theorem stepCapture_run {s : AppState} {idx : ℕ} {l : CaptureLoop}
    (hidx : s.loops.get? idx = some l) (hg : l.gen ∉ s.abortedGens)
    (htl : l.time < l.duration) :
    stepCapture s idx = effectRun { s with
      frames := s.frames ++ [newFrame s.nextId l.time],
      nextId := s.nextId + 1,
      progress := captureProgress l.total (l.captured + 1),
      loops := s.loops.set idx
        { l with time := l.time + l.interval, captured := l.captured + 1 }
      } := by
  unfold stepCapture
  split
  · rename_i h0
    rw [hidx] at h0
    cases h0
  · rename_i l' h0
    rw [hidx] at h0
    obtain rfl : l' = l := by simpa using h0.symm
    rw [if_neg hg, if_pos htl]

theorem stepCapture_frames (s : AppState) (idx : ℕ) :
    (stepCapture s idx).frames = s.frames ∨
    ∃ t, (stepCapture s idx).frames =
      s.frames ++ [newFrame s.nextId t] := by
  unfold stepCapture
  split
  · exact Or.inl rfl
  · rename_i l hidx
    split
    · exact Or.inl rfl
    · split
      · rename_i hg htl
        refine Or.inr ⟨l.time, ?_⟩
        rw [effectRun_frames]
      · exact Or.inl rfl

theorem effectRun_not_processing {s : AppState}
    (h : s.isProcessing = false) : effectRun s = clearTimer s := by
  rcases effectRun_cases s with ⟨_, heq⟩ | ⟨p, h1, _, _, _, heq⟩ |
    ⟨h1, _, _, _, _, _, heq⟩ | ⟨h1, _, _, _, _, _, heq⟩
  · exact heq
  · rw [h1] at h; exact absurd h (by simp)
  · rw [h1] at h; exact absurd h (by simp)
  · rw [h1] at h; exact absurd h (by simp)

/-! ## The capture loop, in closed form -/

theorem captureTimesAux_eq (i : ℕ) (hi : 0 < i) :
    ∀ (n D t : ℕ), D - t ≤ n →
      captureTimesAux D i t =
        (List.range ((D - t + i - 1) / i)).map fun k => t + k * i := by
  intro n
  induction n with
  | zero =>
    intro D t hle
    rw [captureTimesAux.eq_def, dif_neg (by omega : ¬(0 < i ∧ t < D))]
    have h1 : D - t + i - 1 = i - 1 := by omega
    have h2 : (i - 1) / i = 0 := Nat.div_eq_of_lt (by omega)
    rw [h1, h2]
    simp
  | succ n ih =>
    intro D t hle
    by_cases hDt : t < D
    · rw [captureTimesAux.eq_def, dif_pos ⟨hi, hDt⟩]
      rw [ih D (t + i) (by omega)]
      have harg : (D - t + i - 1) / i = (D - (t + i) + i - 1) / i + 1 := by
        by_cases hc : i ≤ D - t
        · have h1 : D - t + i - 1 = (D - (t + i) + i - 1) + i := by omega
          rw [h1, Nat.add_div_right _ hi]
        · have h1 : D - (t + i) + i - 1 = i - 1 := by omega
          have h2 : (i - 1) / i = 0 := Nat.div_eq_of_lt (by omega)
          rw [h1, h2]
          exact Nat.div_eq_of_lt_le (by omega) (by omega)
      rw [harg, List.range_succ_eq_map, List.map_cons, List.map_map]
      have hfun : ((fun k => t + k * i) ∘ Nat.succ) =
          fun k => (t + i) + k * i := by
        funext k
        simp [Nat.succ_mul]
        ring
      rw [hfun]
      simp
    · rw [captureTimesAux.eq_def, dif_neg (by omega : ¬(0 < i ∧ t < D))]
      have h1 : D - t + i - 1 = i - 1 := by omega
      have h2 : (i - 1) / i = 0 := Nat.div_eq_of_lt (by omega)
      rw [h1, h2]
      simp

theorem captureTimes_eq (D i : ℕ) (hi : 1 ≤ i) :
    captureTimes D i =
      (List.range ((D + i - 1) / i)).map fun k => k * i := by
  unfold captureTimes
  rw [Nat.max_eq_right hi, captureTimesAux_eq i hi D D 0 (by omega)]
  simp

/-! ## Auxiliary facts for the claims -/

theorem rank_refl_case {s : AppState} (hi : Inv s) {f f' : VideoFrame}
    (hf : f ∈ s.frames) (hf' : f' ∈ s.frames) (hid : f'.id = f.id) :
    statusRank f.status ≤ statusRank f'.status ∧
    (isTerminal f.status = true → f'.status = f.status) := by
  obtain rfl : f' = f := frames_id_inj hi.idsNodup hf' hf hid
  exact ⟨le_refl _, fun _ => rfl⟩

/-- With the four-status taxonomy, a frame list with no Pending and no
Analyzing frame is all-terminal: the analysis-phase progress write of
the reconciliation effect (`50 + …`) is unreachable for nonempty
lists. -/
theorem allTerminal_of_no_pending_no_analyzing {fs : List VideoFrame}
    (hp : firstPending fs = none) (ha : hasAnalyzing fs = false) :
    allTerminal fs = true := by
  rw [allTerminal, List.all_eq_true]
  intro f hf
  have hp' := List.find?_eq_none.mp hp f hf
  have ha' := (hasAnalyzing_false_iff fs).mp ha f hf
  cases hst : f.status with
  | pending => exact absurd (by simp [hst]) hp'
  | analyzing => exact absurd hst ha'
  | completed => rfl
  | error => rfl

theorem terminalCount_lt_of_not_allTerminal {fs : List VideoFrame}
    (h : allTerminal fs = false) : terminalCount fs < fs.length := by
  unfold allTerminal at h
  rw [List.all_eq_false] at h
  obtain ⟨x, hx, hxt⟩ := h
  exact List.length_filter_lt_length_iff_exists.mpr ⟨x, hx, hxt⟩

theorem reach_runTwo : Reachable runTwo :=
  Reachable.next (.captureStep 0) (Reachable.next (.captureStep 0)
    (Reachable.next (.startRun 6 3) Reachable.init))

theorem reach_runTwoFired : Reachable runTwoFired :=
  Reachable.next .timerFire reach_runTwo

/-! ## Claim C1 -/

/-- Claim C1: in every reachable state, at most one frame has status
Analyzing, and the reconciliation step never schedules the Analysis
Client (never leaves a live timeout) while some frame is Analyzing. -/
theorem claim1_at_most_one_analyzing (s : AppState) (h : Reachable s) :
    analyzingCount s.frames ≤ 1 ∧
    (∀ fid, s.timer = some fid → hasAnalyzing s.frames = false) := by
  have hi := inv_reachable h
  exact ⟨hi.analyzingLe, fun fid ht => (hi.timerSome fid ht).2.2.1⟩

/-- Witness for C1 at a concrete reachable state with one frame
analyzing and one pending. -/
theorem claim1_witness :
    analyzingCount runTwoFired.frames ≤ 1 ∧
    (∀ fid, runTwoFired.timer = some fid →
      hasAnalyzing runTwoFired.frames = false) :=
  claim1_at_most_one_analyzing runTwoFired reach_runTwoFired

/-! ## Claim C4 -/

/-- Counterexample for C4 as stated, refuting both halves of the
conjunction on concrete runs of the source.  First half (progress = 100
only when every frame is terminal): on a 5-second video sampled every
3 seconds, the capture phase alone drives progress to exactly 100 while
both captured frames are still Pending (`capturedCount = 2`,
`totalFrames = ⌊5/3⌋ = 1`, progress `= (2/1)·50 = 100`).  Second half
(progress non-decreasing at every step): in `runDone7` the first
frame's analysis completes mid-capture, the reconciliation declares the
run done (progress 100), and the next capture iteration — which checks
only the abort signal, never `isProcessing` — drops progress back to
`(2/2)·50 = 50`. -/
theorem claim4_counterexample :
    (runD5.progress = 100 ∧ runD5.frames ≠ [] ∧
      ∀ f ∈ runD5.frames, f.status = .pending) ∧
    runDone7.progress = 100 ∧
    (step runDone7 (.captureStep 0)).progress = 50 := by
  refine ⟨⟨?_, by decide, by decide⟩, rfl, ?_⟩
  · show captureProgress 1 2 = 100
    norm_num [captureProgress]
  · show captureProgress 2 2 = 50
    norm_num [captureProgress]

/-- Claim C4 (amended): neither half survives as stated, and what
remains is: the reconciliation step either leaves progress unchanged or
sets it to exactly 100, and it sets 100 only in states where frames
exist and all are terminal (in particular `effectRun` never lowers a
progress of 100 — only a capture iteration can); and the capture-phase
progress formula is non-decreasing in the captured count.  Per the
counterexample, the capture formula can itself reach 100 with all
frames Pending, and a capture iteration after a premature all-done
reconciliation decreases progress. -/
theorem claim4_amended :
    (∀ s : AppState, (effectRun s).progress = 100 →
      s.progress = 100 ∨
        (0 < s.frames.length ∧ allTerminal s.frames = true)) ∧
    (∀ s : AppState, (effectRun s).progress = s.progress ∨
      ((effectRun s).progress = 100 ∧ 0 < s.frames.length ∧
        allTerminal s.frames = true)) ∧
    (∀ total captured : ℕ,
      captureProgress total captured ≤ captureProgress total (captured + 1)) := by
  refine ⟨?_, ?_, ?_⟩
  · intro s hprog
    rcases effectRun_cases s with ⟨_, heq⟩ | ⟨p, _, _, _, _, heq⟩ |
      ⟨_, _, _, _, h4, h5, heq⟩ | ⟨_, _, _, _, h4, h5, heq⟩
    · rw [heq] at hprog
      exact Or.inl hprog
    · rw [heq] at hprog
      exact Or.inl hprog
    · exact Or.inr ⟨h4, h5⟩
    · rw [heq] at hprog
      have hprog' : 50 + ((terminalCount s.frames : ℚ) /
          (s.frames.length : ℚ)) * 50 = 100 := hprog
      have hlt := terminalCount_lt_of_not_allTerminal h5
      have hq : ((terminalCount s.frames : ℚ) /
          (s.frames.length : ℚ)) < 1 := by
        rw [div_lt_one (by exact_mod_cast h4)]
        exact_mod_cast hlt
      exact absurd hprog' (by nlinarith)
  · intro s
    rcases effectRun_cases s with ⟨_, heq⟩ | ⟨p, _, _, _, _, heq⟩ |
      ⟨_, _, _, hnone, h4, h5, heq⟩ | ⟨_, _, hna, hnone, h4, h5, heq⟩
    · rw [heq]
      exact Or.inl rfl
    · rw [heq]
      exact Or.inl rfl
    · rw [heq]
      exact Or.inr ⟨rfl, h4, h5⟩
    · have := allTerminal_of_no_pending_no_analyzing hnone hna
      rw [this] at h5
      cases h5
  · intro total captured
    unfold captureProgress
    rcases Nat.eq_zero_or_pos total with h0 | hpos
    · subst h0
      simp
    · have hposq : (0 : ℚ) < (total : ℚ) := by exact_mod_cast hpos
      have hle : ((captured : ℚ) / (total : ℚ)) ≤
          (((captured + 1 : ℕ) : ℚ) / (total : ℚ)) := by
        rw [div_le_div_iff_of_pos_right hposq]
        exact_mod_cast Nat.le_succ captured
      nlinarith

/-- Witness for the amended C4: a live all-terminal state where the
effect sets progress to 100 (and does not leave it unchanged), plus the
capture-formula monotonicity at a concrete point. -/
theorem claim4_witness :
    (effectRun doneState).progress = 100 ∧
    (doneState.progress = 100 ∨
      (0 < doneState.frames.length ∧ allTerminal doneState.frames = true)) ∧
    ((effectRun doneState).progress = doneState.progress ∨
      ((effectRun doneState).progress = 100 ∧
        0 < doneState.frames.length ∧
        allTerminal doneState.frames = true)) ∧
    captureProgress 2 1 ≤ captureProgress 2 2 := by
  have h100 : (effectRun doneState).progress = 100 := rfl
  exact ⟨h100, claim4_amended.1 doneState h100,
    claim4_amended.2.1 doneState, claim4_amended.2.2 2 1⟩

/-! ## Claim C5 -/

/-- Counterexample for C5 as stated: stop a run while one analysis call
is in flight; when the call resolves, `processFrame` still applies the
Completed status and the prompt to the stopped run's frame. -/
theorem claim5_counterexample :
    abortedCur runStopped = true ∧ runStopped.isProcessing = false ∧
    ∃ f ∈ (step runStopped (.apiResolve 0 (.ok "desc"))).frames,
      f.status = .completed ∧ f.prompt = some "desc" := by
  decide

/-- Claim C5 (amended): after cancellation the reconciliation step never
schedules another analysis (no timeout survives an effect run in an
aborted state), but the eventual result of an in-flight call is NOT
discarded: `processFrame` applies the terminal-status mutation to the
frame unconditionally, even on a stopped run. -/
theorem claim5_amended :
    (∀ s : AppState, abortedCur s = true → (effectRun s).timer = none) ∧
    (∀ (s : AppState) (fid : ℕ) (t : String), fid ∈ s.inFlight →
      ∀ f ∈ s.frames, f.id = fid →
        ∃ f' ∈ (step s (.apiResolve fid (.ok t))).frames, f'.id = fid ∧
          f'.status = .completed ∧ f'.prompt = some t) := by
  constructor
  · intro s hab
    exact effectRun_timer_none (Or.inr (Or.inl hab))
  · intro s fid t hin f hf hfid
    have hframes : (step s (.apiResolve fid (.ok t))).frames =
        applyStatus fid (applyOutcome (.ok t)) s.frames := by
      show (stepResolve s fid (.ok t)).frames = _
      rw [stepResolve_mem hin, effectRun_frames]
    rw [hframes]
    refine ⟨applyOutcome (.ok t) f, ?_, ?_, rfl, rfl⟩
    · have hmem := List.mem_map_of_mem
        (fun g => if g.id = fid then applyOutcome (.ok t) g else g) hf
      have hbeta : (fun g => if g.id = fid then applyOutcome (.ok t) g
          else g) f = applyOutcome (.ok t) f := by
        simp [hfid]
      rw [hbeta] at hmem
      exact hmem
    · rw [applyOutcome_id]
      exact hfid

/-- Witness for the amended C5: the stopped run schedules nothing, and
the in-flight call of `runFired` still completes its frame. -/
theorem claim5_witness :
    (effectRun runStopped).timer = none ∧
    ∃ f' ∈ (step runFired (.apiResolve 0 (.ok "desc"))).frames,
      f'.id = 0 ∧ f'.status = .completed ∧ f'.prompt = some "desc" :=
  ⟨claim5_amended.1 runStopped (by decide),
    claim5_amended.2 runFired 0 "desc" (by decide)
      ⟨0, 0, none, .analyzing, none⟩ (by decide) (by decide)⟩

/-! ## Claim C7 -/

/-- Claim C7: along any transition from a reachable state, a frame's
status only advances in rank through
Pending → Analyzing → {Completed | Error}, and a frame in a terminal
state keeps exactly that status. -/
theorem claim7_status_monotone (s : AppState) (h : Reachable s)
    (e : Event) (f f' : VideoFrame) (hf : f ∈ s.frames)
    (hf' : f' ∈ (step s e).frames) (hid : f'.id = f.id) :
    statusRank f.status ≤ statusRank f'.status ∧
    (isTerminal f.status = true → f'.status = f.status) := by
  have hi := inv_reachable h
  cases e with
  | startRun d i =>
    have hf2 : f' ∈ (stepStart s d i).frames := hf'
    rw [stepStart_frames] at hf2
    simp at hf2
  | captureStep idx =>
    have hf2 : f' ∈ (stepCapture s idx).frames := hf'
    rcases stepCapture_frames s idx with hc | ⟨t, hc⟩
    · rw [hc] at hf2
      exact rank_refl_case hi hf hf2 hid
    · rw [hc] at hf2
      rcases List.mem_append.mp hf2 with hm | hm
      · exact rank_refl_case hi hf hm hid
      · have hfn : f' = newFrame s.nextId t := by simpa using hm
        have hfid' : f'.id = s.nextId := by rw [hfn]; rfl
        rw [hid] at hfid'
        have := hi.idsFresh f hf
        omega
  | timerFire =>
    cases ht : s.timer with
    | none =>
      have hf2 : f' ∈ (stepTimerFire s).frames := hf'
      rw [stepTimerFire_none ht] at hf2
      exact rank_refl_case hi hf hf2 hid
    | some fid =>
      have hf2 : f' ∈ (stepTimerFire s).frames := hf'
      rw [stepTimerFire_some_frames ht] at hf2
      obtain ⟨g0, hg0, hgeq⟩ := mem_applyStatus hf2
      by_cases hx : g0.id = fid
      · rw [if_pos hx] at hgeq
        have hgid : g0.id = f.id := by rw [← hid, hgeq]
        have hg0f : g0 = f := frames_id_inj hi.idsNodup hg0 hf hgid
        obtain ⟨_, _, _, p, hfp, hpid⟩ := hi.timerSome fid ht
        have hpmem := List.mem_of_find?_eq_some hfp
        have hpf : p = f := frames_id_inj hi.idsNodup hpmem hf
          (by rw [hpid, ← hx, hg0f])
        have hppend : f.status = .pending := by
          have hp := List.find?_some hfp
          rw [hpf] at hp
          simpa using hp
        rw [hgeq, hg0f]
        constructor
        · rw [hppend]
          simp [statusRank]
        · intro hterm
          rw [hppend] at hterm
          simp [isTerminal] at hterm
      · rw [if_neg hx] at hgeq
        rw [hgeq] at hid ⊢
        exact rank_refl_case hi hf hg0 hid
  | apiResolve fid o =>
    by_cases hin : fid ∈ s.inFlight
    · have hf2 : f' ∈ (stepResolve s fid o).frames := hf'
      rw [stepResolve_mem hin, effectRun_frames] at hf2
      have hf3 : f' ∈ applyStatus fid (applyOutcome o) s.frames := hf2
      obtain ⟨g0, hg0, hgeq⟩ := mem_applyStatus hf3
      by_cases hx : g0.id = fid
      · rw [if_pos hx] at hgeq
        have hgid : g0.id = f.id := by
          rw [← hid, hgeq, applyOutcome_id]
        have hg0f : g0 = f := frames_id_inj hi.idsNodup hg0 hf hgid
        have hfa : f.status = .analyzing := by
          rw [← hg0f]
          exact hi.inFlightAnalyzing fid hin g0 hg0 hx
        rw [hgeq, hg0f]
        constructor
        · rw [hfa]
          cases o <;> simp [applyOutcome, statusRank]
        · intro hterm
          rw [hfa] at hterm
          simp [isTerminal] at hterm
      · rw [if_neg hx] at hgeq
        rw [hgeq] at hid ⊢
        exact rank_refl_case hi hf hg0 hid
    · have hf2 : f' ∈ (stepResolve s fid o).frames := hf'
      rw [stepResolve_not_mem hin] at hf2
      exact rank_refl_case hi hf hf2 hid
  | stop =>
    have hf2 : f' ∈ (stepStop s).frames := hf'
    rw [stepStop_frames] at hf2
    exact rank_refl_case hi hf hf2 hid
  | fileSelected =>
    have hf2 : f' ∈ (stepFileSelected s).frames := hf'
    rw [stepFileSelected_frames] at hf2
    simp at hf2
  | resetRun =>
    have hf2 : f' ∈ (stepReset s).frames := hf'
    rw [stepReset_frames] at hf2
    simp at hf2

/-- Witness for C7: the first frame of `runTwo` advances from Pending to
Analyzing when the timeout fires. -/
theorem claim7_witness :
    statusRank (⟨0, 0, none, .pending, none⟩ : VideoFrame).status ≤
      statusRank (⟨0, 0, none, .analyzing, none⟩ : VideoFrame).status ∧
    (isTerminal (⟨0, 0, none, .pending, none⟩ : VideoFrame).status = true →
      (⟨0, 0, none, .analyzing, none⟩ : VideoFrame).status =
        (⟨0, 0, none, .pending, none⟩ : VideoFrame).status) :=
  claim7_status_monotone runTwo reach_runTwo .timerFire
    ⟨0, 0, none, .pending, none⟩ ⟨0, 0, none, .analyzing, none⟩
    (by decide) (by decide) (by decide)

/-! ## Claim C2 -/

/-- Counterexample for C2 as stated: on a 7-second video sampled every
3 seconds the loop emits timestamps 0, 3 and 6 — three frames — while
⌊7/3⌋ = 2. -/
theorem claim2_counterexample :
    captureTimes 7 3 = [0, 3, 6] ∧ (captureTimes 7 3).length = 3 ∧
    7 / 3 = 2 := by
  have h : captureTimes 7 3 = [0, 3, 6] := by
    simp [captureTimes, captureTimesAux]
  exact ⟨h, by rw [h]; rfl, rfl⟩

/-- Claim C2 (amended): for every interval ≥ 1 the capture phase emits
exactly the timestamps 0, i, 2i, … strictly below D — that is
⌈D/i⌉ = (D+i-1)/i frames, one more than ⌊D/i⌋ whenever i does not
divide a positive D; for D = 0 the sequence is empty. -/
theorem claim2_amended (D i : ℕ) (hi : 1 ≤ i) :
    captureTimes D i =
      (List.range ((D + i - 1) / i)).map (fun k => k * i) ∧
    (captureTimes D i).length = (D + i - 1) / i ∧
    (D = 0 → captureTimes D i = []) := by
  have h := captureTimes_eq D i hi
  refine ⟨h, by rw [h]; simp, ?_⟩
  intro hD
  subst hD
  rw [h]
  have h2 : (0 + i - 1) / i = 0 := Nat.div_eq_of_lt (by omega)
  rw [h2]
  simp

/-- Witness for the amended C2 at D = 7, i = 3. -/
theorem claim2_witness :
    captureTimes 7 3 =
      (List.range ((7 + 3 - 1) / 3)).map (fun k => k * 3) ∧
    (captureTimes 7 3).length = (7 + 3 - 1) / 3 ∧
    (7 = 0 → captureTimes 7 3 = []) :=
  claim2_amended 7 3 (by norm_num)

/-! ## Claim C3 -/

/-- Claim C3: `generateImagePrompt` retries a rate-limited (429) call
after waiting 2^attempt seconds (2s, 4s, 8s), up to 3 retries.  A call
that rate-limits twice then succeeds returns the model text after
delays [2, 4]; a call that always rate-limits fails after exactly 3
retries (delays [2, 4, 8]) with the underlying message; a non-429
failure fails immediately with no delay. -/
theorem claim3_retry_backoff (call : ℕ → ApiOutcome) (m t : String) :
    ((∀ n, n < 2 → call n = .err true (some m)) →
      call 2 = .ok (some t) → t ≠ "" →
      generateImagePrompt call = (.ok t, [2, 4])) ∧
    ((∀ n, call n = .err true (some m)) → m ≠ "" →
      generateImagePrompt call = (.error m, [2, 4, 8])) ∧
    (call 0 = .err false (some m) → m ≠ "" →
      generateImagePrompt call = (.error m, [])) ∧
    ((∀ n, call n = .err true none) →
      generateImagePrompt call = (.error genericFailure, [2, 4, 8])) := by
  refine ⟨?_, ?_, ?_, ?_⟩
  · intro h429 hok ht
    have h0 := h429 0 (by omega)
    have h1 := h429 1 (by omega)
    simp [generateImagePrompt, generateImagePromptAux, h0, h1, hok,
      jsOrString, ht, maxRetries]
  · intro h429 hm
    simp [generateImagePrompt, generateImagePromptAux, h429,
      jsOrString, hm, maxRetries]
  · intro hfail hm
    simp [generateImagePrompt, generateImagePromptAux, hfail,
      jsOrString, hm, maxRetries]
  · intro h429
    simp [generateImagePrompt, generateImagePromptAux, h429,
      jsOrString, maxRetries]

/-- Witness for C3 on three concrete call behaviours. -/
theorem claim3_witness :
    generateImagePrompt callTwice429 = (.ok "hello", [2, 4]) ∧
    generateImagePrompt callAlways429 = (.error "429", [2, 4, 8]) ∧
    generateImagePrompt callBadKey = (.error "bad key", []) ∧
    generateImagePrompt callNoMsg = (.error genericFailure, [2, 4, 8]) := by
  refine ⟨(claim3_retry_backoff callTwice429 "429" "hello").1 ?_ ?_ ?_,
    (claim3_retry_backoff callAlways429 "429" "x").2.1 ?_ ?_,
    (claim3_retry_backoff callBadKey "bad key" "x").2.2.1 ?_ ?_,
    (claim3_retry_backoff callNoMsg "m" "x").2.2.2 ?_⟩
  · intro n hn
    interval_cases n <;> rfl
  · rfl
  · decide
  · intro n
    rfl
  · decide
  · rfl
  · decide
  · intro n
    rfl

/-! ## Claim C6 -/

/-- Claim C6: when the interval exceeds a positive duration, exactly
one frame at t = 0 is produced — but `totalFrames` is computed as
`Math.floor(duration / interval)` with no ≥ 1 guard, so it is 0 and the
capture-progress expression divides by zero (this theorem exhibits the
missing guard; per the spec the implementation was required to clamp
`totalExpectedFrames ≥ 1`). -/
theorem claim6_missing_guard (D i : ℕ) (h1 : 0 < D) (h2 : D < i) :
    captureTimes D i = [0] ∧ totalFrames D i = 0 := by
  have hi : 1 ≤ i := by omega
  constructor
  · rw [captureTimes_eq D i hi]
    have hdiv : (D + i - 1) / i = 1 :=
      Nat.div_eq_of_lt_le (by omega) (by omega)
    have hr1 : List.range 1 = [0] := rfl
    rw [hdiv, hr1]
    simp
  · unfold totalFrames
    rw [Nat.max_eq_right hi]
    exact Nat.div_eq_of_lt h2

/-- Witness for C6 at duration 2s, interval 3s. -/
theorem claim6_witness :
    captureTimes 2 3 = [0] ∧ totalFrames 2 3 = 0 :=
  claim6_missing_guard 2 3 (by norm_num) (by norm_num)

/-! ## Claim C8 -/

/-- Claim C8: whenever the reconciliation step has scheduled a frame
for analysis (a timeout is live), the scheduled frame is the first
frame in list order whose status is Pending — every earlier frame is
non-Pending — and when the timeout fires exactly that frame, and no
other, becomes Analyzing. -/
theorem claim8_fifo (s : AppState) (h : Reachable s) (fid : ℕ)
    (ht : s.timer = some fid) :
    ∃ l1 f l2, s.frames = l1 ++ f :: l2 ∧ f.id = fid ∧
      f.status = .pending ∧ (∀ g ∈ l1, g.status ≠ .pending) ∧
      (step s .timerFire).frames =
        l1 ++ { f with status := .analyzing } :: l2 := by
  have hi := inv_reachable h
  obtain ⟨_, _, _, f, hfp, hfid⟩ := hi.timerSome fid ht
  obtain ⟨l1, l2, hsplit, hpa, hneg⟩ := find?_split _ _ _ hfp
  refine ⟨l1, f, l2, hsplit, hfid, by simpa using hpa, ?_, ?_⟩
  · intro g hg
    have := hneg g hg
    simpa using this
  · have hframes : (step s .timerFire).frames =
        applyStatus fid (fun f => { f with status := .analyzing })
          s.frames := stepTimerFire_some_frames ht
    rw [hframes, hsplit, applyStatus_split (hsplit ▸ hi.idsNodup) hfid]

/-- Witness for C8 at `runTwo`, whose effect scheduled frame 0. -/
theorem claim8_witness :
    ∃ l1 f l2, runTwo.frames = l1 ++ f :: l2 ∧ f.id = 0 ∧
      f.status = .pending ∧ (∀ g ∈ l1, g.status ≠ .pending) ∧
      (step runTwo .timerFire).frames =
        l1 ++ { f with status := .analyzing } :: l2 :=
  claim8_fifo runTwo reach_runTwo 0 (by decide)

/-! ## Claim C9 -/

/-- Claim C9: when the in-flight analysis of frame `fid` fails, only
that frame moves to the Error terminal state, carrying the error
message; and if the run is live (processing, not cancelled) and a
Pending frame remains, the reconciliation step schedules that first
Pending frame for analysis. -/
theorem claim9_error_isolated (s : AppState) (h : Reachable s)
    (fid : ℕ) (msg : String) (hin : fid ∈ s.inFlight) (f : VideoFrame)
    (hf : f ∈ s.frames) (hfid : f.id = fid)
    (hproc : s.isProcessing = true) (hab : abortedCur s = false) :
    (∀ f' ∈ (step s (.apiResolve fid (.error msg))).frames,
      f'.id = fid → f'.status = .error ∧ f'.errorMessage = some msg) ∧
    (∀ f' ∈ (step s (.apiResolve fid (.error msg))).frames,
      f'.id ≠ fid → f' ∈ s.frames) ∧
    (∀ p, firstPending
        (applyStatus fid (applyOutcome (.error msg)) s.frames) = some p →
      (step s (.apiResolve fid (.error msg))).timer = some p.id) := by
  have hi := inv_reachable h
  have hfa : f.status = .analyzing :=
    hi.inFlightAnalyzing fid hin f hf hfid
  have hstep : step s (.apiResolve fid (.error msg)) = effectRun { s with
      frames := applyStatus fid (applyOutcome (.error msg)) s.frames,
      inFlight := s.inFlight.erase fid } := stepResolve_mem hin
  refine ⟨?_, ?_, ?_⟩
  · intro f' hf' hfid'
    have hf2 : f' ∈ applyStatus fid (applyOutcome (.error msg))
        s.frames := by
      rw [hstep, effectRun_frames] at hf'
      exact hf'
    obtain ⟨g0, hg0, hgeq⟩ := mem_applyStatus hf2
    by_cases hx : g0.id = fid
    · rw [if_pos hx] at hgeq
      rw [hgeq]
      exact ⟨rfl, rfl⟩
    · rw [if_neg hx] at hgeq
      rw [hgeq] at hfid'
      exact absurd hfid' hx
  · intro f' hf' hfid'
    have hf2 : f' ∈ applyStatus fid (applyOutcome (.error msg))
        s.frames := by
      rw [hstep, effectRun_frames] at hf'
      exact hf'
    obtain ⟨g0, hg0, hgeq⟩ := mem_applyStatus hf2
    by_cases hx : g0.id = fid
    · rw [if_pos hx] at hgeq
      rw [hgeq, applyOutcome_id] at hfid'
      exact absurd hx hfid'
    · rw [if_neg hx] at hgeq
      rw [hgeq]
      exact hg0
  · intro p hp
    have hana : hasAnalyzing (applyStatus fid (applyOutcome (.error msg))
        s.frames) = false :=
      hasAnalyzing_applyOutcome_false hi.analyzingLe hf hfid hfa
    rcases effectRun_cases { s with
        frames := applyStatus fid (applyOutcome (.error msg)) s.frames,
        inFlight := s.inFlight.erase fid } with
      ⟨hcond, heq⟩ | ⟨q, _, _, _, hq, heq⟩ |
      ⟨_, _, _, hnone, _, _, heq⟩ | ⟨_, _, _, hnone, _, _, heq⟩
    · exfalso
      rcases hcond with hc | hc | hc | hc
      · have hc' : s.isProcessing = false := hc
        rw [hproc] at hc'
        simp at hc'
      · have hc' : abortedCur s = true := hc
        rw [hab] at hc'
        simp at hc'
      · have hc' : hasAnalyzing (applyStatus fid
            (applyOutcome (.error msg)) s.frames) = true := hc
        rw [hana] at hc'
        simp at hc'
      · have hc' : firstPending (applyStatus fid
            (applyOutcome (.error msg)) s.frames) = none := hc.1
        rw [hp] at hc'
        simp at hc'
    · have hq' : firstPending (applyStatus fid
          (applyOutcome (.error msg)) s.frames) = some q := hq
      rw [hp] at hq'
      obtain rfl : p = q := by simpa using hq'
      rw [hstep, heq]
    · have h0 : firstPending (applyStatus fid
          (applyOutcome (.error msg)) s.frames) = none := hnone
      rw [hp] at h0
      simp at h0
    · have h0 : firstPending (applyStatus fid
          (applyOutcome (.error msg)) s.frames) = none := hnone
      rw [hp] at h0
      simp at h0

/-- Witness for C9: frame 0 of `runTwoFired` fails with "boom"; frame 1
stays Pending and is scheduled next. -/
theorem claim9_witness :
    (∀ f' ∈ (step runTwoFired (.apiResolve 0 (.error "boom"))).frames,
      f'.id = 0 → f'.status = .error ∧ f'.errorMessage = some "boom") ∧
    (∀ f' ∈ (step runTwoFired (.apiResolve 0 (.error "boom"))).frames,
      f'.id ≠ 0 → f' ∈ runTwoFired.frames) ∧
    (∀ p, firstPending (applyStatus 0 (applyOutcome (.error "boom"))
        runTwoFired.frames) = some p →
      (step runTwoFired (.apiResolve 0 (.error "boom"))).timer =
        some p.id) :=
  claim9_error_isolated runTwoFired reach_runTwoFired 0 "boom"
    (by decide) ⟨0, 0, none, .analyzing, none⟩ (by decide) (by decide)
    (by decide) (by decide)

/-! ## Claim C10 -/

/-- Claim C10: `handleFileSelected` clears the frame list, the progress
and the processing flag, but — unlike `reset` — leaves the abort
controller untouched (same generations, nothing newly aborted), so a
capture loop still in flight is not halted: its next iteration appends
its frame to the freshly cleared list. -/
theorem claim10_fileSelected (s : AppState) :
    (stepFileSelected s).frames = [] ∧
    (stepFileSelected s).progress = 0 ∧
    (stepFileSelected s).isProcessing = false ∧
    (stepFileSelected s).abortedGens = s.abortedGens ∧
    (stepFileSelected s).curGen = s.curGen ∧
    (stepFileSelected s).loops = s.loops ∧
    (∀ idx l, s.loops.get? idx = some l → l.gen ∉ s.abortedGens →
      l.time < l.duration →
      (step (stepFileSelected s) (.captureStep idx)).frames =
        [newFrame s.nextId l.time]) := by
  have hfs : stepFileSelected s =
      clearTimer { s with frames := [], progress := 0, isProcessing := false } := by
    unfold stepFileSelected
    exact effectRun_not_processing rfl
  refine ⟨by rw [hfs]; rfl, by rw [hfs]; rfl, by rw [hfs]; rfl,
    by rw [hfs]; rfl, by rw [hfs]; rfl, by rw [hfs]; rfl, ?_⟩
  intro idx l hidx hg htl
  rw [hfs]
  have hc := stepCapture_run
    (s := clearTimer { s with frames := [], progress := 0, isProcessing := false })
    (show (clearTimer { s with frames := [], progress := 0, isProcessing := false }).loops.get? idx = some l from hidx)
    (show l.gen ∉ (clearTimer { s with frames := [], progress := 0, isProcessing := false }).abortedGens from hg)
    htl
  have hres : (stepCapture (clearTimer { s with frames := [], progress := 0, isProcessing := false }) idx).frames =
      [newFrame s.nextId l.time] := by
    rw [hc, effectRun_frames]
    rfl
  exact hres

/-- Witness for C10 at `runOne`: selecting a new file clears the list
while the old capture loop appends its next frame (timestamp 3) to it. -/
theorem claim10_witness :
    (stepFileSelected runOne).frames = [] ∧
    (stepFileSelected runOne).progress = 0 ∧
    (stepFileSelected runOne).isProcessing = false ∧
    (stepFileSelected runOne).abortedGens = runOne.abortedGens ∧
    (stepFileSelected runOne).curGen = runOne.curGen ∧
    (stepFileSelected runOne).loops = runOne.loops ∧
    (step (stepFileSelected runOne) (.captureStep 0)).frames =
      [newFrame 1 3] := by
  obtain ⟨h1, h2, h3, h4, h5, h6, h7⟩ := claim10_fileSelected runOne
  refine ⟨h1, h2, h3, h4, h5, h6, ?_⟩
  have hl := h7 0 { gen := 1, duration := 9, interval := 3, time := 3, captured := 1, total := 3 }
    (by decide) (by decide) (by decide)
  exact hl

end VideoLens
